import Mathlib

/-!
Verification of `combine.py` from the cheap-beers-data repository.

The script opens a git repository, lists the commits that affected
`beer.json` (newest first), and for each commit tries to (1) resolve the
file blob in the commit tree, (2) decode it as UTF-8, (3) parse it as
JSON.  Successes are serialized as one JSON line each into
`beer_versions.jsonl`; failures print a skip diagnostic and continue.

The embedding below mirrors the script directly.  UTF-8 decoding and
JSON parsing are calls into the Python standard library / gitpython, so
they appear as function parameters (`decode`, `par`); everything else —
the record construction, the JSON serializer (`json.dumps` with default
separators and `ensure_ascii=True`), the loop, the output file handling
and console messages — is translated from the source.
-/

namespace Combine

/-- The fixed input path constant `JSON_FILENAME = "beer.json"` of the script. -/
def JSON_FILENAME : String := "beer.json"

/-- The fixed output path constant `OUTPUT_FILE = "beer_versions.jsonl"` of the script. -/
def OUTPUT_FILE : String := "beer_versions.jsonl"

/-- A JSON value, the result of `json.loads` on the file content. -/
inductive Json where
| null : Json
| bool : Bool → Json
| num : Int → Json
| str : String → Json
| arr : List Json → Json
| obj : List (String × Json) → Json

/-- One commit as the script sees it through gitpython: its full hash
(`commit.hexsha`), its timestamp already rendered by
`commit.committed_datetime.isoformat()`, and the bytes of `beer.json` in
its tree (`none` when the path is absent from that commit's tree, in
which case `commit.tree / JSON_FILENAME` raises). -/
structure Commit where
  hexsha : String
  timestamp : String
  blob : Option (List Nat)
deriving DecidableEq

/-- The repository handle: `list(repo.iter_commits(paths=JSON_FILENAME))`,
newest first, exactly as the history walk yields them. -/
structure Repo where
  commits : List Commit
deriving DecidableEq

/-- The three exception classes the `try` block of the script can catch:
`KeyError` from `commit.tree / JSON_FILENAME`, `UnicodeDecodeError` from
`.decode("utf-8")`, `json.JSONDecodeError` from `json.loads`. -/
inductive ExtractErr where
| pathAbsent : ExtractErr
| decodeFailure : ExtractErr
| invalidJson : ExtractErr
deriving DecidableEq

/-- The body of the script's `try` block: blob lookup, then UTF-8 decode,
then JSON parse, failing with the first error raised.  `decode` models
`bytes.decode("utf-8")` and `par` models `json.loads`. -/
def extract (decode : List Nat → Option String) (par : String → Option Json)
    (c : Commit) : Except ExtractErr Json :=
  match c.blob with
  | none => .error .pathAbsent
  | some bs =>
    match decode bs with
    | none => .error .decodeFailure
    | some s =>
      match par s with
      | none => .error .invalidJson
      | some j => .ok j

/-- The `record` dict built for a successful commit: insertion order
`commit`, `timestamp`, `data`, exactly as in the script. -/
def mkRecord (c : Commit) (data : Json) : Json :=
  .obj [("commit", .str c.hexsha), ("timestamp", .str c.timestamp), ("data", data)]

/-- One skip diagnostic: the `print(f"Skipping commit {commit_hash} due to
error: {e}")` line, kept structured as (hash, error class). -/
structure Diag where
  hexsha : String
  err : ExtractErr
deriving DecidableEq

/-- Message text of each exception class (stands in for `str(e)`). -/
def errText : ExtractErr → String
| .pathAbsent => "Blob or Tree named beer.json not found"
| .decodeFailure => "invalid utf-8"
| .invalidJson => "Expecting value"

/-- The printed form of a skip diagnostic. -/
def Diag.render (d : Diag) : String :=
  "Skipping commit " ++ d.hexsha ++ " due to error: " ++ errText d.err

/-- The commit loop of the script: for each commit, run the `try` block;
on success append the record to the output, on failure emit a diagnostic
and `continue`.  Returns (records written, diagnostics printed), both in
traversal order. -/
def run (decode : List Nat → Option String) (par : String → Option Json) :
    List Commit → List Json × List Diag
| [] => ([], [])
| c :: rest =>
  match extract decode par c with
  | .ok j => (mkRecord c j :: (run decode par rest).1, (run decode par rest).2)
  | .error e => ((run decode par rest).1, ⟨c.hexsha, e⟩ :: (run decode par rest).2)

/-- Hex digit used by the `\uXXXX` escapes of `json.dumps`. -/
def hexDigit (n : Nat) : Char :=
  if n < 10 then Char.ofNat (48 + n) else Char.ofNat (87 + n)

/-- Four lowercase hex digits, as in a `\uXXXX` escape. -/
def hex4 (n : Nat) : List Char :=
  [hexDigit (n / 4096 % 16), hexDigit (n / 256 % 16), hexDigit (n / 16 % 16), hexDigit (n % 16)]

/-- Character escaping of `json.dumps` with `ensure_ascii=True`: `"` and
`\` are backslash-escaped, the named control escapes are used, every
other character outside the printable ASCII range `0x20..0x7e` becomes a
`\uXXXX` escape (a surrogate pair above `0xffff`). -/
def escapeChar (c : Char) : List Char :=
  if c = '\x22' then ['\\', '\x22']
  else if c = '\\' then ['\\', '\\']
  else if c = '\n' then ['\\', 'n']
  else if c = '\t' then ['\\', 't']
  else if c = '\x0d' then ['\\', 'r']
  else if c = '\x08' then ['\\', 'b']
  else if c = '\x0c' then ['\\', 'f']
  else if c.toNat < 32 || 126 < c.toNat then
    if c.toNat < 65536 then '\\' :: 'u' :: hex4 c.toNat
    else
      let n := c.toNat - 65536
      ('\\' :: 'u' :: hex4 (55296 + n / 1024)) ++ ('\\' :: 'u' :: hex4 (56320 + n % 1024))
  else [c]

/-- Escape a whole string, character by character. -/
def escapeString (s : String) : List Char :=
  (s.data.map escapeChar).flatten

/-- Decimal digits of a natural number, most significant first.  The
fuel argument only bounds the recursion; `fuel = n` always suffices. -/
def natChars (fuel n : Nat) (acc : List Char) : List Char :=
  match fuel with
  | 0 => hexDigit (n % 10) :: acc
  | fuel + 1 =>
    if n < 10 then hexDigit n :: acc
    else natChars fuel (n / 10) (hexDigit (n % 10) :: acc)

/-- CPython's decimal rendering of an `int` inside `json.dumps`: an
optional minus sign followed by the decimal digits. -/
def intChars (n : Int) : List Char :=
  if n < 0 then '-' :: natChars n.natAbs n.natAbs []
  else natChars n.toNat n.toNat []

mutual

/-- `json.dumps` with the default separators `", "` and `": "`, as a
character list. -/
def dumpsChars : Json → List Char
| .null => "null".data
| .bool true => "true".data
| .bool false => "false".data
| .num n => intChars n
| .str s => '\x22' :: escapeString s ++ ['\x22']
| .arr xs => '[' :: dumpsList xs ++ [']']
| .obj kvs => '\x7b' :: dumpsObj kvs ++ ['\x7d']

/-- Array elements joined by `", "`. -/
def dumpsList : List Json → List Char
| [] => []
| [x] => dumpsChars x
| x :: y :: rest => dumpsChars x ++ ',' :: ' ' :: dumpsList (y :: rest)

/-- Object members `"key": value` joined by `", "`. -/
def dumpsObj : List (String × Json) → List Char
| [] => []
| [(k, v)] => dumpsChars (.str k) ++ ':' :: ' ' :: dumpsChars v
| (k, v) :: p :: rest =>
  dumpsChars (.str k) ++ ':' :: ' ' :: dumpsChars v ++ ',' :: ' ' :: dumpsObj (p :: rest)

end

/-- `json.dumps` as a string. -/
def Json.dumps (j : Json) : String := ⟨dumpsChars j⟩

/-- The lines of the output file, in write order: one serialized record
per successfully extracted commit. -/
def outputLines (decode : List Nat → Option String) (par : String → Option Json)
    (cs : List Commit) : List String :=
  (run decode par cs).1.map Json.dumps

/-- The full byte content of `beer_versions.jsonl` after a run: each
record's serialization followed by exactly one newline — no enclosing
array, no other separator. -/
def renderFile (lines : List String) : String :=
  String.join (lines.map (fun l => l ++ "\n"))

/-- The startup console message `Found {n} commits affecting beer.json`. -/
def foundMsg (n : Nat) : String :=
  "Found " ++ toString n ++ " commits affecting " ++ JSON_FILENAME

/-- The final console message. -/
def doneMsg : String :=
  "All versions extracted into " ++ OUTPUT_FILE

/-- Observable process state: the content of `beer_versions.jsonl`
(`none` when the file does not exist) and the console lines printed. -/
structure ProgState where
  outFile : Option String
  stdout : List String
deriving DecidableEq

/-- The whole script, from `repo = Repo(LOCAL_DIR)` on.  `repoRes` is the
result of opening the repository: when it fails the exception propagates
unhandled (returned error, state untouched); otherwise the commit count
is printed, the output file is opened with mode `"w"` (created or
truncated regardless of its previous content), every commit is processed
and the completion message is printed. -/
def program (repoRes : Except String Repo) (decode : List Nat → Option String)
    (par : String → Option Json) (st : ProgState) : ProgState × Option String :=
  match repoRes with
  | .error e => (st, some e)
  | .ok repo =>
    let r := run decode par repo.commits
    ({ outFile := some (renderFile ((r.1).map Json.dumps)),
       stdout := st.stdout ++ foundMsg repo.commits.length ::
         ((r.2).map Diag.render ++ [doneMsg]) }, none)

/-- The commit loop again, but with the output-file writes allowed to
fail: `writeOk k` says whether the k-th call to `outfile.write`
succeeds.  The `try` block covers only blob lookup / decode / parse, as
in the source, so a write failure is not caught: it aborts the run.  The
first component is the trace of commits whose blob the loop attempted to
read, in order. -/
def runW (decode : List Nat → Option String) (par : String → Option Json)
    (writeOk : Nat → Bool) : List Commit → Nat → List String × Except String (List Json × List Diag)
| [], _ => ([], .ok ([], []))
| c :: rest, k =>
  match extract decode par c with
  | .error e =>
    (c.hexsha :: (runW decode par writeOk rest k).1,
      match (runW decode par writeOk rest k).2 with
      | .error w => .error w
      | .ok p => .ok (p.1, ⟨c.hexsha, e⟩ :: p.2))
  | .ok j =>
    if writeOk k then
      (c.hexsha :: (runW decode par writeOk rest (k + 1)).1,
        match (runW decode par writeOk rest (k + 1)).2 with
        | .error w => .error w
        | .ok p => .ok (mkRecord c j :: p.1, p.2))
    else ([c.hexsha], .error "write failure")

/-- Decidable digit test. -/
def isDigitB (c : Char) : Bool := decide ('0' ≤ c) && decide (c ≤ '9')

/-- Lowercase hexadecimal digit test, the alphabet of `commit.hexsha`. -/
def isHexChar (c : Char) : Bool := isDigitB c || (decide ('a' ≤ c) && decide (c ≤ 'f'))

/-- A 40-or-more-character lowercase hexadecimal string. -/
def isHex40 (s : String) : Bool := decide (40 ≤ s.length) && s.data.all isHexChar

/-- UTC-offset suffix `±HH:MM` of `datetime.isoformat()`. -/
def checkOffset : List Char → Bool
| [sgn, h1, h2, ':', m1, m2] =>
  (sgn = '+' || sgn = '-') && ([h1, h2, m1, m2].all isDigitB)
| _ => false

/-- Tail after the seconds: an optional 6-digit fraction, then the
offset, matching `datetime.isoformat()` on an aware datetime. -/
def checkTail : List Char → Bool
| '.' :: f1 :: f2 :: f3 :: f4 :: f5 :: f6 :: rest =>
  ([f1, f2, f3, f4, f5, f6].all isDigitB) && checkOffset rest
| rest => checkOffset rest

/-- ISO-8601 shape `YYYY-MM-DDTHH:MM:SS[.ffffff]±HH:MM`, the output
format of `commit.committed_datetime.isoformat()`. -/
def isIso8601 (s : String) : Bool :=
  match s.data with
  | y1 :: y2 :: y3 :: y4 :: '-' :: m1 :: m2 :: '-' :: d1 :: d2 :: 'T' ::
      h1 :: h2 :: ':' :: n1 :: n2 :: ':' :: s1 :: s2 :: rest =>
    ([y1, y2, y3, y4, m1, m2, d1, d2, h1, h2, n1, n2, s1, s2].all isDigitB) && checkTail rest
  | _ => false

/-- The `commit` field of an output record, looked up by key. -/
def recCommit : Json → Option String
| .obj kvs =>
  match kvs.lookup "commit" with
  | some (.str h) => some h
  | _ => none
| _ => none

/-- The `data` field of an output record, looked up by key. -/
def recData : Json → Option Json
| .obj kvs => kvs.lookup "data"
| _ => none

/-- Sample values used to instantiate the theorems on concrete input. -/
def sampleCommit : Commit :=
  ⟨"aaaaaaaaaaaaaaaaaaaaaaaaaaaaaaaaaaaaaaaa", "2024-01-02T03:04:05+10:00",
    some [110, 117, 108, 108]⟩

/-- A commit whose tree lacks `beer.json`. -/
def sampleBad : Commit :=
  ⟨"bbbbbbbbbbbbbbbbbbbbbbbbbbbbbbbbbbbbbbbb", "2023-05-06T07:08:09+00:00", none⟩

/-- A concrete stand-in for `bytes.decode("utf-8")` on the sample data. -/
def sampleDecode (bs : List Nat) : Option String :=
  if bs = [110, 117, 108, 108] then some "null" else none

/-- A concrete stand-in for `json.loads` on the sample data. -/
def samplePar (s : String) : Option Json :=
  if s = "null" then some Json.null else none

/-! ### Basic lemmas about the commit loop -/

/-- The first key of a record is `commit`, holding the commit's hash. -/
theorem recCommit_mkRecord (c : Commit) (j : Json) :
    recCommit (mkRecord c j) = some c.hexsha := rfl

/-- The third key of a record is `data`, holding the parsed JSON value. -/
theorem recData_mkRecord (c : Commit) (j : Json) :
    recData (mkRecord c j) = some j := rfl

/-- The records written are the successfully extracted commits, in
traversal order. -/
theorem run_fst_eq (decode : List Nat → Option String) (par : String → Option Json)
    (cs : List Commit) :
    (run decode par cs).1 =
      cs.filterMap (fun c => (extract decode par c).toOption.map (mkRecord c)) := by
  induction cs with
  | nil => rfl
  | cons c rest ih =>
    cases hx : extract decode par c <;> simp [run, hx, Except.toOption, ih]

/-- The diagnostics printed are the failed commits, in traversal order. -/
theorem run_snd_eq (decode : List Nat → Option String) (par : String → Option Json)
    (cs : List Commit) :
    (run decode par cs).2 =
      cs.filterMap (fun c =>
        match extract decode par c with
        | .error e => some ⟨c.hexsha, e⟩
        | .ok _ => none) := by
  induction cs with
  | nil => rfl
  | cons c rest ih =>
    cases hx : extract decode par c <;> simp [run, hx, ih]

/-- Every commit contributes exactly one of: an output record or a skip
diagnostic. -/
theorem run_length (decode : List Nat → Option String) (par : String → Option Json)
    (cs : List Commit) :
    (run decode par cs).1.length + (run decode par cs).2.length = cs.length := by
  induction cs with
  | nil => rfl
  | cons c rest ih =>
    cases hx : extract decode par c <;> simp [run, hx] <;> omega

/-- Every output record comes from a successfully extracted commit of the
traversal. -/
theorem run_fst_mem (decode : List Nat → Option String) (par : String → Option Json)
    (cs : List Commit) (r : Json) (hr : r ∈ (run decode par cs).1) :
    ∃ c ∈ cs, ∃ j, extract decode par c = .ok j ∧ r = mkRecord c j := by
  rw [run_fst_eq] at hr
  obtain ⟨c, hc, hmap⟩ := List.mem_filterMap.mp hr
  cases hx : extract decode par c with
  | error e => rw [hx] at hmap; simp [Except.toOption] at hmap
  | ok j =>
    rw [hx] at hmap
    simp only [Except.toOption, Option.map_some] at hmap
    exact ⟨c, hc, j, hx, (Option.some.inj hmap).symm⟩

/-- Every diagnostic comes from a failed commit of the traversal. -/
theorem run_snd_mem (decode : List Nat → Option String) (par : String → Option Json)
    (cs : List Commit) (g : Diag) (hg : g ∈ (run decode par cs).2) :
    ∃ c ∈ cs, ∃ e, extract decode par c = .error e ∧ g = ⟨c.hexsha, e⟩ := by
  rw [run_snd_eq] at hg
  obtain ⟨c, hc, hmap⟩ := List.mem_filterMap.mp hg
  cases hx : extract decode par c with
  | ok j => rw [hx] at hmap; simp at hmap
  | error e =>
    rw [hx] at hmap
    exact ⟨c, hc, e, hx, (Option.some.inj hmap).symm⟩

/-- A hash absent from the traversal matches no output record. -/
theorem run_filter_not_mem (decode : List Nat → Option String) (par : String → Option Json)
    (cs : List Commit) (h : String) (hne : h ∉ cs.map Commit.hexsha) :
    (run decode par cs).1.filter (fun r => recCommit r == some h) = [] := by
  rw [List.filter_eq_nil_iff]
  intro r hr
  obtain ⟨c, hc, j, hok, rfl⟩ := run_fst_mem decode par cs r hr
  rw [recCommit_mkRecord]
  simp only [beq_iff_eq, Option.some.injEq]
  intro hEq
  exact hne (hEq ▸ List.mem_map_of_mem Commit.hexsha hc)

/-- A hash absent from the traversal matches no diagnostic. -/
theorem run_snd_filter_not_mem (decode : List Nat → Option String) (par : String → Option Json)
    (cs : List Commit) (h : String) (hne : h ∉ cs.map Commit.hexsha) :
    (run decode par cs).2.filter (fun d => d.hexsha == h) = [] := by
  rw [List.filter_eq_nil_iff]
  intro g hg
  obtain ⟨c, hc, e, herr, rfl⟩ := run_snd_mem decode par cs g hg
  simp only [beq_iff_eq]
  intro hEq
  exact hne (hEq ▸ List.mem_map_of_mem Commit.hexsha hc)

/-- With pairwise-distinct hashes, a successfully parsed commit matches
exactly its own record among the output. -/
theorem run_filter_ok (decode : List Nat → Option String) (par : String → Option Json)
    (c : Commit) (j : Json) (hok : extract decode par c = .ok j) :
    ∀ cs : List Commit, (cs.map Commit.hexsha).Nodup → c ∈ cs →
      (run decode par cs).1.filter (fun r => recCommit r == some c.hexsha) = [mkRecord c j]
| [], _, hc => absurd hc (List.not_mem_nil c)
| a :: rest, hnd, hc => by
  rw [List.map_cons, List.nodup_cons] at hnd
  obtain ⟨ha, hrest⟩ := hnd
  rcases List.mem_cons.mp hc with rfl | hcr
  · simp only [run, hok, List.filter_cons]
    rw [recCommit_mkRecord]
    simp only [beq_self_eq_true, if_true]
    rw [run_filter_not_mem decode par rest c.hexsha ha]
  · have hane : ¬(a.hexsha = c.hexsha) := fun hEq =>
      ha (hEq ▸ List.mem_map_of_mem Commit.hexsha hcr)
    cases hxa : extract decode par a with
    | error e =>
      simp only [run, hxa]
      exact run_filter_ok decode par c j hok rest hrest hcr
    | ok j' =>
      simp only [run, hxa, List.filter_cons]
      rw [recCommit_mkRecord]
      have : (some a.hexsha == some c.hexsha) = false := by
        simp only [beq_eq_false_iff_ne, ne_eq, Option.some.injEq]
        exact hane
      rw [this]
      simp only [Bool.false_eq_true, if_false]
      exact run_filter_ok decode par c j hok rest hrest hcr

/-- With pairwise-distinct hashes, a failed commit matches exactly its
own diagnostic among those printed. -/
theorem run_filter_err (decode : List Nat → Option String) (par : String → Option Json)
    (c : Commit) (e : ExtractErr) (herr : extract decode par c = .error e) :
    ∀ cs : List Commit, (cs.map Commit.hexsha).Nodup → c ∈ cs →
      (run decode par cs).2.filter (fun d => d.hexsha == c.hexsha) = [(⟨c.hexsha, e⟩ : Diag)]
| [], _, hc => absurd hc (List.not_mem_nil c)
| a :: rest, hnd, hc => by
  rw [List.map_cons, List.nodup_cons] at hnd
  obtain ⟨ha, hrest⟩ := hnd
  rcases List.mem_cons.mp hc with rfl | hcr
  · simp only [run, herr, List.filter_cons]
    simp only [beq_self_eq_true, if_true]
    rw [run_snd_filter_not_mem decode par rest c.hexsha ha]
  · have hane : ¬(a.hexsha = c.hexsha) := fun hEq =>
      ha (hEq ▸ List.mem_map_of_mem Commit.hexsha hcr)
    cases hxa : extract decode par a with
    | ok j' =>
      simp only [run, hxa]
      exact run_filter_err decode par c e herr rest hrest hcr
    | error e' =>
      simp only [run, hxa, List.filter_cons]
      have : ((⟨a.hexsha, e'⟩ : Diag).hexsha == c.hexsha) = false := by
        simp only [beq_eq_false_iff_ne, ne_eq]
        exact hane
      rw [this]
      simp only [Bool.false_eq_true, if_false]
      exact run_filter_err decode par c e herr rest hrest hcr

/-- With pairwise-distinct hashes, a commit for which extraction fails
contributes no output record at all. -/
theorem run_filter_err_fst (decode : List Nat → Option String) (par : String → Option Json)
    (cs : List Commit) (c : Commit) (e : ExtractErr)
    (hnd : (cs.map Commit.hexsha).Nodup) (hc : c ∈ cs)
    (herr : extract decode par c = .error e) :
    (run decode par cs).1.filter (fun r => recCommit r == some c.hexsha) = [] := by
  rw [List.filter_eq_nil_iff]
  intro r hr
  obtain ⟨c', hc', j', hok', rfl⟩ := run_fst_mem decode par cs r hr
  rw [recCommit_mkRecord]
  simp only [beq_iff_eq, Option.some.injEq]
  intro hEq
  have : c' = c := List.inj_on_of_nodup_map hnd hc' hc hEq
  rw [this] at hok'
  rw [hok'] at herr
  cases herr

/-- With pairwise-distinct hashes, the commit values of the output
records are pairwise distinct. -/
theorem run_map_recCommit_nodup (decode : List Nat → Option String)
    (par : String → Option Json) :
    ∀ cs : List Commit, (cs.map Commit.hexsha).Nodup →
      ((run decode par cs).1.map recCommit).Nodup
| [], _ => by simp [run]
| a :: rest, hnd => by
  rw [List.map_cons, List.nodup_cons] at hnd
  obtain ⟨ha, hrest⟩ := hnd
  cases hxa : extract decode par a with
  | error e =>
    simp only [run, hxa]
    exact run_map_recCommit_nodup decode par rest hrest
  | ok j =>
    simp only [run, hxa, List.map_cons, List.nodup_cons]
    refine ⟨?_, run_map_recCommit_nodup decode par rest hrest⟩
    intro hmem
    obtain ⟨r, hr, hrc⟩ := List.mem_map.mp hmem
    obtain ⟨c', hc', j', hok', rfl⟩ := run_fst_mem decode par rest r hr
    rw [recCommit_mkRecord, recCommit_mkRecord] at hrc
    exact ha ((Option.some.inj hrc) ▸ List.mem_map_of_mem Commit.hexsha hc')

/-! ### Lemmas about the loop with fallible writes -/

/-- When every write succeeds, the fallible loop computes exactly the
pure loop: extraction errors are caught locally and never abort. -/
theorem runW_all_ok (decode : List Nat → Option String) (par : String → Option Json)
    (writeOk : Nat → Bool) (hw : ∀ k, writeOk k = true) :
    ∀ (cs : List Commit) (k : Nat),
      (runW decode par writeOk cs k).2 = .ok (run decode par cs)
| [], _ => rfl
| c :: rest, k => by
  cases hx : extract decode par c with
  | error e =>
    simp only [runW, hx, run]
    rw [runW_all_ok decode par writeOk hw rest k]
  | ok j =>
    simp only [runW, hx, hw k, if_true, run]
    rw [runW_all_ok decode par writeOk hw rest (k + 1)]

/-- A failed write is not caught: the run aborts at once, and no later
commit is read. -/
theorem runW_write_fail (decode : List Nat → Option String) (par : String → Option Json)
    (writeOk : Nat → Bool) (c : Commit) (rest : List Commit) (k : Nat) (j : Json)
    (hok : extract decode par c = .ok j) (hw : writeOk k = false) :
    runW decode par writeOk (c :: rest) k = ([c.hexsha], .error "write failure") := by
  simp [runW, hok, hw]

/-- The trace of blob reads is a sublist of the traversal's hashes: each
commit's content is attempted at most once, aborted runs read a prefix. -/
theorem runW_reads_sublist (decode : List Nat → Option String) (par : String → Option Json)
    (writeOk : Nat → Bool) :
    ∀ (cs : List Commit) (k : Nat),
      ((runW decode par writeOk cs k).1).Sublist (cs.map Commit.hexsha)
| [], _ => by simp [runW]
| c :: rest, k => by
  cases hx : extract decode par c with
  | error e =>
    simp only [runW, hx, List.map_cons]
    exact (runW_reads_sublist decode par writeOk rest k).cons₂ c.hexsha
  | ok j =>
    by_cases hw : writeOk k
    · simp only [runW, hx, hw, if_true, List.map_cons]
      exact (runW_reads_sublist decode par writeOk rest (k + 1)).cons₂ c.hexsha
    · simp only [runW, hx, List.map_cons]
      rw [if_neg hw]
      exact (List.nil_sublist _).cons₂ c.hexsha

/-! ### The serializer emits no newline, so records occupy one line each -/

/-- Hex digits are never a newline. -/
theorem hexDigit_ne_nl : ∀ n, n < 16 → hexDigit n ≠ '\n' := by decide

/-- A `\uXXXX` digit block contains no newline. -/
theorem noNl_hex4 (n : Nat) : '\n' ∉ hex4 n := by
  intro hmem
  simp only [hex4, List.mem_cons, List.not_mem_nil, or_false] at hmem
  rcases hmem with h | h | h | h <;>
    exact hexDigit_ne_nl _ (Nat.mod_lt _ (by norm_num)) h.symm

/-- Escaping any character yields no newline (a newline itself becomes
the two characters backslash-n). -/
theorem noNl_escapeChar (c : Char) : '\n' ∉ escapeChar c := by
  unfold escapeChar
  split_ifs with h1 h2 h3 h4 h5 h6 h7 h8 h9
  · decide
  · decide
  · decide
  · decide
  · decide
  · decide
  · decide
  · intro hmem
    simp only [List.mem_cons] at hmem
    rcases hmem with h | h | h
    · cases h
    · cases h
    · exact noNl_hex4 _ h
  · intro hmem
    simp only [List.mem_append, List.mem_cons] at hmem
    rcases hmem with (h | h | h) | (h | h | h)
    · cases h
    · cases h
    · exact noNl_hex4 _ h
    · cases h
    · cases h
    · exact noNl_hex4 _ h
  · intro hmem
    simp only [List.mem_cons, List.not_mem_nil, or_false] at hmem
    exact h3 hmem.symm

/-- Escaping a whole string yields no newline. -/
theorem noNl_escapeString (s : String) : '\n' ∉ escapeString s := by
  intro hmem
  simp only [escapeString, List.mem_flatten, List.mem_map] at hmem
  obtain ⟨l, ⟨c, _, rfl⟩, hl⟩ := hmem
  exact noNl_escapeChar c hl

/-- The decimal digits of a natural contain no newline. -/
theorem noNl_natChars : ∀ (fuel n : Nat) (acc : List Char),
    '\n' ∉ acc → '\n' ∉ natChars fuel n acc
| 0, n, acc, ha => by
  intro hmem
  simp only [natChars, List.mem_cons] at hmem
  rcases hmem with h | h
  · exact hexDigit_ne_nl (n % 10) (by omega) h.symm
  · exact ha h
| fuel + 1, n, acc, ha => by
  intro hmem
  simp only [natChars] at hmem
  by_cases hn : n < 10
  · rw [if_pos hn] at hmem
    rcases List.mem_cons.mp hmem with h | h
    · exact hexDigit_ne_nl n (by omega) h.symm
    · exact ha h
  · rw [if_neg hn] at hmem
    refine noNl_natChars fuel (n / 10) _ ?_ hmem
    intro h
    rcases List.mem_cons.mp h with h' | h'
    · exact hexDigit_ne_nl (n % 10) (by omega) h'.symm
    · exact ha h'

/-- The decimal rendering of an integer contains no newline. -/
theorem noNl_intChars (n : Int) : '\n' ∉ intChars n := by
  unfold intChars
  split_ifs with h
  · intro hmem
    rcases List.mem_cons.mp hmem with h' | h'
    · cases h'
    · exact noNl_natChars _ _ [] (List.not_mem_nil _) h'
  · exact noNl_natChars _ _ [] (List.not_mem_nil _)

mutual

/-- `json.dumps` of any value contains no newline character. -/
theorem noNl_dumpsChars : ∀ j : Json, '\n' ∉ dumpsChars j
| .null => by simp only [dumpsChars]; decide
| .bool true => by simp only [dumpsChars]; decide
| .bool false => by simp only [dumpsChars]; decide
| .num n => by simp only [dumpsChars]; exact noNl_intChars n
| .str s => by
  intro hmem
  simp only [dumpsChars, List.mem_cons, List.mem_append, List.not_mem_nil, or_false] at hmem
  rcases hmem with (h | h) | h
  · cases h
  · exact noNl_escapeString s h
  · cases h
| .arr xs => by
  intro hmem
  simp only [dumpsChars, List.mem_cons, List.mem_append, List.not_mem_nil, or_false] at hmem
  rcases hmem with (h | h) | h
  · cases h
  · exact noNl_dumpsList xs h
  · cases h
| .obj kvs => by
  intro hmem
  simp only [dumpsChars, List.mem_cons, List.mem_append, List.not_mem_nil, or_false] at hmem
  rcases hmem with (h | h) | h
  · cases h
  · exact noNl_dumpsObj kvs h
  · cases h

/-- A serialized array body contains no newline character. -/
theorem noNl_dumpsList : ∀ xs : List Json, '\n' ∉ dumpsList xs
| [] => by simp only [dumpsList]; exact List.not_mem_nil _
| [x] => by
  intro hmem
  rw [dumpsList] at hmem
  exact noNl_dumpsChars x hmem
| x :: y :: rest => by
  intro hmem
  rw [dumpsList] at hmem
  rcases List.mem_append.mp hmem with h | h
  · exact noNl_dumpsChars x h
  · rcases List.mem_cons.mp h with h' | h'
    · cases h'
    · rcases List.mem_cons.mp h' with h'' | h''
      · cases h''
      · exact noNl_dumpsList (y :: rest) h''

/-- A serialized object body contains no newline character. -/
theorem noNl_dumpsObj : ∀ kvs : List (String × Json), '\n' ∉ dumpsObj kvs
| [] => by simp only [dumpsObj]; exact List.not_mem_nil _
| [(k, v)] => by
  intro hmem
  rw [dumpsObj] at hmem
  rcases List.mem_append.mp hmem with h | h
  · exact noNl_dumpsChars (.str k) h
  · rcases List.mem_cons.mp h with h' | h'
    · cases h'
    · rcases List.mem_cons.mp h' with h'' | h''
      · cases h''
      · exact noNl_dumpsChars v h''
| (k, v) :: p :: rest => by
  intro hmem
  rw [dumpsObj] at hmem
  rcases List.mem_append.mp hmem with h | h
  · rcases List.mem_append.mp h with g | g
    · exact noNl_dumpsChars (.str k) g
    · rcases List.mem_cons.mp g with g1 | g1
      · cases g1
      · rcases List.mem_cons.mp g1 with g2 | g2
        · cases g2
        · exact noNl_dumpsChars v g2
  · rcases List.mem_cons.mp h with h1 | h1
    · cases h1
    · rcases List.mem_cons.mp h1 with h2 | h2
      · cases h2
      · exact noNl_dumpsObj (p :: rest) h2

end

/-! ### The claims -/

/-- Claim C1: for every commit of the qualifying traversal whose blob
exists, decodes as UTF-8 and parses as JSON, the output contains exactly
one record whose `commit` field equals that commit's full hash, namely
`mkRecord c j`, and that record's `data` field deep-equals the JSON
value `j` parsed from the commit's blob. -/
theorem parsed_commit_yields_unique_line (decode : List Nat → Option String)
    (par : String → Option Json) (cs : List Commit) (c : Commit) (j : Json)
    (hnd : (cs.map Commit.hexsha).Nodup) (hc : c ∈ cs)
    (hok : extract decode par c = .ok j) :
    (run decode par cs).1.filter (fun r => recCommit r == some c.hexsha) = [mkRecord c j] ∧
    recData (mkRecord c j) = some j :=
  ⟨run_filter_ok decode par c j hok cs hnd hc, recData_mkRecord c j⟩

/-- Witness for C1 on a concrete two-commit repository. -/
theorem parsed_commit_yields_unique_line_witness :
    ([sampleCommit, sampleBad].map Commit.hexsha).Nodup ∧
    sampleCommit ∈ [sampleCommit, sampleBad] ∧
    extract sampleDecode samplePar sampleCommit = .ok Json.null ∧
    ((run sampleDecode samplePar [sampleCommit, sampleBad]).1.filter
        (fun r => recCommit r == some sampleCommit.hexsha) =
          [mkRecord sampleCommit Json.null] ∧
      recData (mkRecord sampleCommit Json.null) = some Json.null) :=
  ⟨by decide, by decide, rfl,
    parsed_commit_yields_unique_line sampleDecode samplePar [sampleCommit, sampleBad]
      sampleCommit Json.null (by decide) (by decide) rfl⟩

/-- Claim C2: a qualifying commit whose file is absent, undecodable or
invalid JSON contributes no output record, exactly one diagnostic naming
it is printed, and the loop continues with the remaining commits, whose
records and diagnostics are produced unchanged. -/
theorem failed_commit_skipped_with_diagnostic (decode : List Nat → Option String)
    (par : String → Option Json) (cs : List Commit) (c : Commit) (e : ExtractErr)
    (hnd : (cs.map Commit.hexsha).Nodup) (hc : c ∈ cs)
    (herr : extract decode par c = .error e) :
    (run decode par cs).1.filter (fun r => recCommit r == some c.hexsha) = [] ∧
    (run decode par cs).2.filter (fun d => d.hexsha == c.hexsha) = [(⟨c.hexsha, e⟩ : Diag)] ∧
    run decode par (c :: cs) =
      ((run decode par cs).1, ⟨c.hexsha, e⟩ :: (run decode par cs).2) :=
  ⟨run_filter_err_fst decode par cs c e hnd hc herr,
   run_filter_err decode par c e herr cs hnd hc,
   by simp [run, herr]⟩

/-- Witness for C2: the commit lacking `beer.json` is skipped with one
diagnostic. -/
theorem failed_commit_skipped_with_diagnostic_witness :
    ([sampleCommit, sampleBad].map Commit.hexsha).Nodup ∧
    sampleBad ∈ [sampleCommit, sampleBad] ∧
    extract sampleDecode samplePar sampleBad = .error .pathAbsent ∧
    ((run sampleDecode samplePar [sampleCommit, sampleBad]).1.filter
        (fun r => recCommit r == some sampleBad.hexsha) = [] ∧
      (run sampleDecode samplePar [sampleCommit, sampleBad]).2.filter
        (fun d => d.hexsha == sampleBad.hexsha) = [(⟨sampleBad.hexsha, .pathAbsent⟩ : Diag)] ∧
      run sampleDecode samplePar (sampleBad :: [sampleCommit, sampleBad]) =
        ((run sampleDecode samplePar [sampleCommit, sampleBad]).1,
          ⟨sampleBad.hexsha, .pathAbsent⟩ ::
            (run sampleDecode samplePar [sampleCommit, sampleBad]).2)) :=
  ⟨by decide, by decide, rfl,
    failed_commit_skipped_with_diagnostic sampleDecode samplePar [sampleCommit, sampleBad]
      sampleBad .pathAbsent (by decide) (by decide) rfl⟩

/-- Claim C3: records written plus skip diagnostics equal the number of
qualifying commits — the count printed at startup, which is exactly
`foundMsg repo.commits.length` in the program's console output. -/
theorem lines_plus_skips_eq_commit_count (decode : List Nat → Option String)
    (par : String → Option Json) (repo : Repo) (st : ProgState) :
    (run decode par repo.commits).1.length + (run decode par repo.commits).2.length =
      repo.commits.length ∧
    (program (.ok repo) decode par st).1.stdout =
      st.stdout ++ foundMsg repo.commits.length ::
        ((run decode par repo.commits).2.map Diag.render ++ [doneMsg]) :=
  ⟨run_length decode par repo.commits, rfl⟩

/-- Claim C4: every output line is the serialization of a JSON object
with exactly the three keys `commit`, `timestamp`, `data` in that order,
where the commit is a 40+-character hex string and the timestamp an
ISO-8601 string (both inherited from the repository, hence the
hypothesis on the traversal), and the line contains no newline — so with
`renderFile` appending exactly one newline per record there is no
enclosing array and no separator beyond the newline. -/
theorem output_line_format (decode : List Nat → Option String)
    (par : String → Option Json) (cs : List Commit)
    (hfmt : ∀ c ∈ cs, isHex40 c.hexsha = true ∧ isIso8601 c.timestamp = true) :
    ∀ line ∈ outputLines decode par cs, ∃ h t d,
      line = Json.dumps (Json.obj [("commit", Json.str h), ("timestamp", Json.str t),
        ("data", d)]) ∧
      isHex40 h = true ∧ isIso8601 t = true ∧ '\n' ∉ line.data := by
  intro line hline
  obtain ⟨r, hr, rfl⟩ := List.mem_map.mp hline
  obtain ⟨c, hc, j, hok, rfl⟩ := run_fst_mem decode par cs r hr
  obtain ⟨hh, ht⟩ := hfmt c hc
  exact ⟨c.hexsha, c.timestamp, j, rfl, hh, ht, noNl_dumpsChars (mkRecord c j)⟩

/-- Witness for C4 on the concrete one-commit repository. -/
theorem output_line_format_witness :
    (∀ c ∈ [sampleCommit], isHex40 c.hexsha = true ∧ isIso8601 c.timestamp = true) ∧
    (∃ h t d, Json.dumps (mkRecord sampleCommit Json.null) =
        Json.dumps (Json.obj [("commit", Json.str h), ("timestamp", Json.str t),
          ("data", d)]) ∧
      isHex40 h = true ∧ isIso8601 t = true ∧
      '\n' ∉ (Json.dumps (mkRecord sampleCommit Json.null)).data) :=
  ⟨by decide,
    output_line_format sampleDecode samplePar [sampleCommit] (by decide)
      (Json.dumps (mkRecord sampleCommit Json.null)) (List.mem_singleton_self _)⟩

/-- Claim C5: the output preserves traversal order — the record list is
exactly the traversal filtered-and-mapped by successful extraction, so
line i of the file serializes the record of the i-th commit (newest
first) that yields decodable, parseable content. -/
theorem output_preserves_traversal_order (decode : List Nat → Option String)
    (par : String → Option Json) (cs : List Commit) :
    (run decode par cs).1 =
      cs.filterMap (fun c => (extract decode par c).toOption.map (mkRecord c)) ∧
    outputLines decode par cs =
      (cs.filterMap (fun c => (extract decode par c).toOption.map (mkRecord c))).map
        Json.dumps :=
  ⟨run_fst_eq decode par cs, by simp only [outputLines, run_fst_eq]⟩

/-- Claim C6: determinism / idempotence — for a fixed repository the
output file content after a run is byte-identical whatever the previous
file state was, because mode `"w"` truncates and the content is a
function of the traversal alone. -/
theorem rerun_output_byte_identical (decode : List Nat → Option String)
    (par : String → Option Json) (repo : Repo) (st st' : ProgState) :
    (program (.ok repo) decode par st).1.outFile =
      (program (.ok repo) decode par st').1.outFile ∧
    (program (.ok repo) decode par st).1.outFile =
      some (renderFile (outputLines decode par repo.commits)) :=
  ⟨rfl, rfl⟩

/-- Claim C7: repository-open failure is fatal and precedes all output —
the error propagates (returned unrecovered), the process state is
untouched: no commit processed, nothing printed, the output file neither
created nor truncated. -/
theorem repo_open_failure_is_fatal (decode : List Nat → Option String)
    (par : String → Option Json) (e : String) (st : ProgState) :
    (program (.error e) decode par st).1 = st ∧
    (program (.error e) decode par st).2 = some e :=
  ⟨rfl, rfl⟩

/-- Claim C8: propagation policy — (i) when every write succeeds the
fallible loop equals the pure loop, i.e. blob/decode/parse errors are
caught locally and never abort; (ii) a write failure is not caught: it
aborts immediately with no further commit read; (iii) the trace of blob
reads is a sublist of the traversal, and (iv) with distinct commits each
commit's content is read at most once — no retries. -/
theorem error_propagation_policy (decode : List Nat → Option String)
    (par : String → Option Json) (writeOk : Nat → Bool) (cs : List Commit)
    (c : Commit) (rest : List Commit) (k : Nat) (j : Json) :
    ((∀ i, writeOk i = true) → (runW decode par writeOk cs k).2 = .ok (run decode par cs)) ∧
    (extract decode par c = .ok j → writeOk k = false →
      runW decode par writeOk (c :: rest) k = ([c.hexsha], .error "write failure")) ∧
    ((runW decode par writeOk cs k).1).Sublist (cs.map Commit.hexsha) ∧
    ((cs.map Commit.hexsha).Nodup → ((runW decode par writeOk cs k).1).Nodup) :=
  ⟨fun hw => runW_all_ok decode par writeOk hw cs k,
   fun hok hw => runW_write_fail decode par writeOk c rest k j hok hw,
   runW_reads_sublist decode par writeOk cs k,
   fun hnd => hnd.sublist (runW_reads_sublist decode par writeOk cs k)⟩

/-- Witness for C8 on concrete runs: an all-writes-succeed run equals the
pure loop, a failing first write aborts, and reads stay duplicate-free. -/
theorem error_propagation_policy_witness :
    (runW sampleDecode samplePar (fun _ => true) [sampleCommit, sampleBad] 0).2 =
      .ok (run sampleDecode samplePar [sampleCommit, sampleBad]) ∧
    runW sampleDecode samplePar (fun _ => false) [sampleCommit] 0 =
      ([sampleCommit.hexsha], .error "write failure") ∧
    ((runW sampleDecode samplePar (fun _ => true) [sampleCommit, sampleBad] 0).1).Nodup :=
  ⟨(error_propagation_policy sampleDecode samplePar (fun _ => true) [sampleCommit, sampleBad]
      sampleCommit [] 0 Json.null).1 (fun _ => rfl),
   (error_propagation_policy sampleDecode samplePar (fun _ => false) [sampleCommit]
      sampleCommit [] 0 Json.null).2.1 rfl rfl,
   (error_propagation_policy sampleDecode samplePar (fun _ => true) [sampleCommit, sampleBad]
      sampleCommit [] 0 Json.null).2.2.2 (by decide)⟩

/-- Claim C9: with an empty qualifying set the program still truncates
the output file to empty content, prints the zero count and the
completion message, and exits normally. -/
theorem empty_commit_set_behavior (decode : List Nat → Option String)
    (par : String → Option Json) (st : ProgState) :
    program (.ok ⟨[]⟩) decode par st =
      ({ outFile := some "", stdout := st.stdout ++ [foundMsg 0, doneMsg] }, none) := rfl

/-- Claim C10: provided the history walk yields pairwise-distinct
commits, no two output records carry the same `commit` value. -/
theorem output_commit_values_nodup (decode : List Nat → Option String)
    (par : String → Option Json) (cs : List Commit)
    (hnd : (cs.map Commit.hexsha).Nodup) :
    ((run decode par cs).1.map recCommit).Nodup :=
  run_map_recCommit_nodup decode par cs hnd

/-- Witness for C10 on the concrete two-commit repository. -/
theorem output_commit_values_nodup_witness :
    ([sampleCommit, sampleBad].map Commit.hexsha).Nodup ∧
    ((run sampleDecode samplePar [sampleCommit, sampleBad]).1.map recCommit).Nodup :=
  ⟨by decide,
    output_commit_values_nodup sampleDecode samplePar [sampleCommit, sampleBad] (by decide)⟩

end Combine
